import Mathlib

/-!
Verification of the investments repository core: the Interactive Brokers
statement parser (src/broker_statement/ib.rs) and the cash-assets
comparator (src/cash_flow/comparator.rs), shallowly embedded in Lean.

Rows of the input file are lists of string fields; dates are calendar
dates; money amounts are exact scaled decimals mirroring the Decimal type
used by the source.
-/

deriving instance DecidableEq for Except

/- ## String utilities mirroring the Rust standard library pieces used by the code -/

/-- Strips `sep` from the front of `l`, returning the remainder on success. -/
def stripPrefixChars : List Char → List Char → Option (List Char)
  | [], l => some l
  | _ :: _, [] => none
  | c :: cs, x :: xs => if x = c then stripPrefixChars cs xs else none

/-- Worker for `strSplitOn`: splits a character list on the (non-empty)
separator `sep`, leftmost-first, mirroring Rust `str::split`.  The fuel
argument is an upper bound on the input length, making the recursion
structural. -/
def splitCharsAux (sep : List Char) : Nat → List Char → List (List Char)
  | _, [] => [[]]
  | 0, l => [l]
  | fuel + 1, x :: xs =>
    match stripPrefixChars sep (x :: xs) with
    | some rest => [] :: splitCharsAux sep fuel rest
    | none =>
      match splitCharsAux sep fuel xs with
      | [] => [[x]]
      | g :: gs => (x :: g) :: gs

/-- Model of Rust `str::split` collected into a vector: splits `s` on every
non-overlapping occurrence of `sep`, leftmost first. -/
def strSplitOn (s sep : String) : List String :=
  match sep.toList with
  | [] => [s]
  | c :: cs => (splitCharsAux (c :: cs) s.toList.length s.toList).map String.mk

/-- Model of Rust `str::starts_with`. -/
def strStartsWith (s pre : String) : Bool :=
  (stripPrefixChars pre.toList s.toList).isSome

/-- Parses a non-empty all-digit character list as a natural number. -/
def digitsToNat? (l : List Char) : Option Nat :=
  if l = [] then none
  else
    l.foldl
      (fun acc? c =>
        match acc? with
        | none => none
        | some acc => if c.isDigit then some (acc * 10 + (c.toNat - 48)) else none)
      (some 0)

/-- Lexicographic comparison of character lists by code point. -/
def charListLeb : List Char → List Char → Bool
  | [], _ => true
  | _ :: _, [] => false
  | a :: as, b :: bs =>
    if a.toNat < b.toNat then true
    else if b.toNat < a.toNat then false
    else charListLeb as bs

/-- Model of the string ordering used when sorting currency codes. -/
def strLeb (a b : String) : Bool := charListLeb a.toList b.toList

/- ## Calendar dates (model of chrono::NaiveDate as used by the code) -/

/-- A calendar date: year, month (1-12), day (1-31). -/
structure Date where
  year : Int
  month : Nat
  day : Nat
deriving DecidableEq, Repr

/-- Gregorian leap-year rule. -/
def isLeapYear (y : Int) : Bool :=
  (y % 4 == 0 && y % 100 != 0) || y % 400 == 0

/-- Number of days in the given month of the given year. -/
def daysInMonth (y : Int) (m : Nat) : Nat :=
  if m = 2 then (if isLeapYear y then 29 else 28)
  else if m = 4 ∨ m = 6 ∨ m = 9 ∨ m = 11 then 30
  else 31

/-- Validity of a (year, month, day) triple as a calendar date. -/
def validYmd (y : Int) (m d : Nat) : Bool :=
  1 ≤ m && m ≤ 12 && 1 ≤ d && d ≤ daysInMonth y m

/-- Strict ordering of dates (year, then month, then day). -/
def Date.ltB (a b : Date) : Bool :=
  a.year < b.year ||
    (a.year == b.year &&
      (a.month < b.month || (a.month == b.month && a.day < b.day)))

instance : LT Date := ⟨fun a b => a.ltB b = true⟩

instance (a b : Date) : Decidable (a < b) :=
  inferInstanceAs (Decidable (_ = true))

/-- The day after `d`: model of adding `Duration::days(1)` to a date. -/
def Date.nextDay (d : Date) : Date :=
  if d.day < daysInMonth d.year d.month then ⟨d.year, d.month, d.day + 1⟩
  else if d.month < 12 then ⟨d.year, d.month + 1, 1⟩
  else ⟨d.year + 1, 1, 1⟩

/- ## Exact decimal amounts (model of the Decimal type used by the source) -/

/-- Ten to the `n`, as an integer. -/
def pow10 (n : Nat) : Int := ((10 ^ n : Nat) : Int)

/-- An exact decimal number `mantissa / 10 ^ scale`, mirroring the
scaled-integer representation of the source's Decimal type. -/
structure Decimal where
  mantissa : Int
  scale : Nat
deriving DecidableEq, Repr

/-- Numeric equality of decimals (for example `10.0 == 10.00`),
mirroring Decimal PartialEq. -/
def Decimal.eqb (a b : Decimal) : Bool :=
  a.mantissa * pow10 b.scale == b.mantissa * pow10 a.scale

/-- Numeric strict order on decimals. -/
def Decimal.ltb (a b : Decimal) : Bool :=
  a.mantissa * pow10 b.scale < b.mantissa * pow10 a.scale

/-- Model of Decimal `is_zero`. -/
def Decimal.is_zero (a : Decimal) : Bool := a.mantissa == 0

/-- Model of Decimal `is_sign_positive`, as used after the zero check. -/
def Decimal.is_sign_positive (a : Decimal) : Bool := 0 ≤ a.mantissa

/-- Numeric negation. -/
def Decimal.neg (a : Decimal) : Decimal := ⟨-a.mantissa, a.scale⟩

/-- Exact subtraction: rescale both operands to the larger scale. -/
def Decimal.sub (a b : Decimal) : Decimal :=
  let s := max a.scale b.scale
  ⟨a.mantissa * pow10 (s - a.scale) - b.mantissa * pow10 (s - b.scale), s⟩

/-- Exact addition: rescale both operands to the larger scale. -/
def Decimal.add (a b : Decimal) : Decimal :=
  let s := max a.scale b.scale
  ⟨a.mantissa * pow10 (s - a.scale) + b.mantissa * pow10 (s - b.scale), s⟩

/-- The decimal zero, as in `dec!(0)`. -/
def Decimal.zero : Decimal := ⟨0, 0⟩

/-- Modelled from the spec: parsing of an exact decimal amount string
(optional sign, integer digits, optional fractional digits), as performed
by the missing currency module when constructing money values. -/
def parseDecimal (s : String) : Option Decimal :=
  let (neg, body) :=
    if strStartsWith s "-" then (true, s.drop 1)
    else if strStartsWith s "+" then (false, s.drop 1)
    else (false, s)
  let parsed : Option Decimal :=
    match strSplitOn body "." with
    | [intPart] =>
      match digitsToNat? intPart.toList with
      | some n => some ⟨(n : Int), 0⟩
      | none => none
    | [intPart, fracPart] =>
      match digitsToNat? intPart.toList, digitsToNat? fracPart.toList with
      | some ni, some nf =>
        some ⟨(ni : Int) * pow10 fracPart.length + (nf : Int), fracPart.length⟩
      | _, _ => none
    | _ => none
  parsed.map (fun d => if neg then d.neg else d)

/- ## Money values -/

/-- A money value: a currency code together with an exact decimal amount. -/
structure Cash where
  currency : String
  amount : Decimal
deriving DecidableEq, Repr

/-- Model of `Cash::new`. -/
def Cash.new (currency : String) (amount : Decimal) : Cash := ⟨currency, amount⟩

/-- Equality of money values, mirroring Cash PartialEq: identical currency
and numerically identical amount. -/
def Cash.eqb (a b : Cash) : Bool :=
  a.currency == b.currency && a.amount.eqb b.amount

/-- Modelled from the spec: `Cash::sub` from the missing currency module;
subtraction of money values succeeds only for identical currencies. -/
def Cash.sub (a b : Cash) : Option Cash :=
  if a.currency = b.currency then some ⟨a.currency, a.amount.sub b.amount⟩ else none

/-- Modelled from the spec: `Cash::new_from_string` from the missing
currency module; parses an exact decimal amount and pairs it with the
currency code. -/
def Cash.new_from_string (currency s : String) : Except String Cash :=
  match parseDecimal s with
  | some amount => .ok ⟨currency, amount⟩
  | none => .error ("Invalid cash amount: " ++ s)

/-- Modelled from the spec: `Cash::new_from_string_positive` from the
missing currency module; as `new_from_string` but requires a strictly
positive amount. -/
def Cash.new_from_string_positive (currency s : String) : Except String Cash :=
  match Cash.new_from_string currency s with
  | .ok cash =>
    if Decimal.zero.ltb cash.amount then .ok cash
    else .error ("Invalid cash amount: " ++ s)
  | .error e => .error e

/- ## Multi-currency balances -/

/-- Modelled from the spec: `MultiCurrencyCashAccount` from the missing
currency module; a mapping from currency code to an exact decimal amount,
one entry per currency. -/
structure MultiCurrencyCashAccount where
  assets : List (String × Decimal)
deriving DecidableEq, Repr

/-- Looking a currency up yields the stored amount paired with that same
currency code. -/
def MultiCurrencyCashAccount.get (a : MultiCurrencyCashAccount) (currency : String) :
    Option Cash :=
  (a.assets.lookup currency).map (fun amount => ⟨currency, amount⟩)

/-- The currency codes present in the balance, in storage order. -/
def MultiCurrencyCashAccount.currencyList (a : MultiCurrencyCashAccount) : List String :=
  a.assets.map Prod.fst

/- ## Cash-assets comparator (src/cash_flow/comparator.rs) -/

/-- The two log levels used by the comparator: Debug while more historical
data remains, Warn on the last available historical entry. -/
inductive LogLevel
  | debug
  | warn
deriving DecidableEq, Repr

/-- Structured form of the comparator's log output: a per-date header line
followed by one mismatch line per differing currency. -/
inductive LogEntry
  | header (level : LogLevel) (date : Date)
  | mismatch (level : LogLevel) (calculated actual diff : Cash)
deriving DecidableEq, Repr

/-- State of `CashAssetsComparator`: the lookahead entry of the historical
cursor, the rest of the historical series, and the accumulated set of
currency codes (a hash set, modelled as a duplicate-free list). -/
structure CashAssetsComparator where
  next : Option (Date × MultiCurrencyCashAccount)
  rest : List (Date × MultiCurrencyCashAccount)
  currencies : List String
deriving DecidableEq, Repr

/-- Hash-set insertion: adds the element unless already present. -/
def hsInsert (s : List String) (x : String) : List String :=
  if x ∈ s then s else s ++ [x]

/-- Hash-set extension by every element of a list. -/
def hsExtend (s : List String) (xs : List String) : List String :=
  xs.foldl hsInsert s

/-- Insertion of a string into a sorted list. -/
def insertSorted (x : String) : List String → List String
  | [] => [x]
  | y :: ys => if strLeb x y then x :: y :: ys else y :: insertSorted x ys

/-- Model of `CashAssetsComparator::currencies`: the accumulated currency
set collected into a sorted vector. -/
def sortCurrencies (s : List String) : List String :=
  s.foldr insertSorted []

/-- Model of `CashAssetsComparator::new`: starts the cursor on the first
entry of the (date-ascending) historical series. -/
def CashAssetsComparator.new (historical : List (Date × MultiCurrencyCashAccount)) :
    CashAssetsComparator :=
  { next := historical.head?, rest := historical.tail, currencies := [] }

/-- Model of `CashAssetsComparator::next`: advances the cursor one entry. -/
def CashAssetsComparator.advance (c : CashAssetsComparator) : CashAssetsComparator :=
  { c with next := c.rest.head?, rest := c.rest.tail }

/-- The per-currency comparison loop of `compare`: for each currency of the
sorted accumulated set, a missing entry on either side counts as zero of
that currency; differing amounts produce a log line (preceded by a header
line on the first difference).  The `unwrap` of the money subtraction is
modelled as an error result, so a proof that this function never errors is
a proof that the unwrap never panics. -/
def compareCurrencies (calculated actual : MultiCurrencyCashAccount) (level : LogLevel)
    (date : Date) : List String → Bool → Except String (List LogEntry)
  | [], _ => .ok []
  | currency :: restCurrencies, reported =>
    let calculatedAmount := (calculated.get currency).getD (Cash.new currency Decimal.zero)
    let actualAmount := (actual.get currency).getD (Cash.new currency Decimal.zero)
    if calculatedAmount.eqb actualAmount then
      compareCurrencies calculated actual level date restCurrencies reported
    else
      match calculatedAmount.sub actualAmount with
      | none => .error "panic: subtraction of different currencies"
      | some diff =>
        let headerLines : List LogEntry :=
          if reported then [] else [.header level date]
        match compareCurrencies calculated actual level date restCurrencies true with
        | .ok logs =>
          .ok (headerLines ++ [.mismatch level calculatedAmount actualAmount diff] ++ logs)
        | .error e => .error e

/-- Model of `CashAssetsComparator::compare`: one checkpoint of the ordered
merge.  Returns the exhaustion flag, the successor state and the log lines
produced; an error models a panic, which a separate theorem rules out. -/
def CashAssetsComparator.compare (c : CashAssetsComparator) (date : Date)
    (calculated : MultiCurrencyCashAccount) :
    Except String (Bool × CashAssetsComparator × List LogEntry) :=
  match c.next with
  | some (entryDate, actual) =>
    if entryDate < date then
      let advanced := c.advance
      let currencies2 :=
        hsExtend (hsExtend advanced.currencies actual.currencyList) calculated.currencyList
      let c2 := { advanced with currencies := currencies2 }
      let sorted := sortCurrencies currencies2
      let level := if c2.next.isSome then LogLevel.debug else LogLevel.warn
      match compareCurrencies calculated actual level entryDate sorted false with
      | .ok logs => .ok (c2.next.isNone, c2, logs)
      | .error e => .error e
    else .ok (c.next.isNone, c, [])
  | none => .ok (true, c, [])

/-- Driver for a run of checkpoints: feeds each (date, computed balance)
checkpoint to `compare` in order, recording the returned flag and the
comparator state after each call. -/
def runCompares (c : CashAssetsComparator) :
    List (Date × MultiCurrencyCashAccount) → List (Bool × CashAssetsComparator)
  | [] => []
  | (date, calculated) :: rest =>
    match c.compare date calculated with
    | .ok (flag, c2, _) => (flag, c2) :: runCompares c2 rest
    | .error _ => []

/- ## Broker statement data model (src/broker_statement/ib.rs) -/

/-- A deposit event: a date together with a money value. -/
structure CashAssets where
  date : Date
  cash : Cash
deriving DecidableEq, Repr

/-- Modelled from the spec: the statement builder from the missing
broker_statement module; holds the optional period, the optional running
total value and the ordered deposit list populated by the parser. -/
structure BrokerStatementBuilder where
  period : Option (Date × Date)
  total_value : Option Cash
  deposits : List CashAssets
deriving DecidableEq, Repr

/-- Modelled from the spec: `BrokerStatementBuilder::new`. -/
def BrokerStatementBuilder.new : BrokerStatementBuilder :=
  { period := none, total_value := none, deposits := [] }

/-- Modelled from the spec: `BrokerStatementBuilder::set_period`; setting
the period twice is an error surfaced by the builder. -/
def BrokerStatementBuilder.set_period (b : BrokerStatementBuilder) (p : Date × Date) :
    Except String BrokerStatementBuilder :=
  match b.period with
  | some _ => .error "Period is already set"
  | none => .ok { b with period := some p }

/-- The finalized statement. -/
structure BrokerStatement where
  period : Date × Date
  total_value : Option Cash
  deposits : List CashAssets
deriving DecidableEq, Repr

/-- Modelled from the spec: `BrokerStatementBuilder::get`; finalization
fails if the required period was never set. -/
def BrokerStatementBuilder.get (b : BrokerStatementBuilder) : Except String BrokerStatement :=
  match b.period with
  | some p => .ok ⟨p, b.total_value, b.deposits⟩
  | none => .error "Invalid statement: period is not set"

/-- Shared parser state: the statement builder, the ticker map and the
pending withholding-tax map (a hash map modelled as an association list
with unique keys). -/
structure IbStatementParser where
  statement : BrokerStatementBuilder
  tickers : List (String × String)
  taxes : List ((Date × String) × Cash)
deriving DecidableEq, Repr

/-- Model of `IbStatementParser::new`. -/
def IbStatementParser.new : IbStatementParser :=
  { statement := BrokerStatementBuilder.new, tickers := [], taxes := [] }

/- ## Pending-tax map operations (model of HashMap as used by the parser) -/

/-- Hash-map lookup on the pending-tax association list. -/
def lookupTax (taxes : List ((Date × String) × Cash)) (k : Date × String) : Option Cash :=
  match taxes with
  | [] => none
  | e :: rest => if e.1 = k then some e.2 else lookupTax rest k

/-- Removes the first entry with the given key. -/
def removeFirstTax (taxes : List ((Date × String) × Cash)) (k : Date × String) :
    List ((Date × String) × Cash) :=
  match taxes with
  | [] => []
  | e :: rest => if e.1 = k then rest else e :: removeFirstTax rest k

/-- Model of `HashMap::remove`: returns the removed value (if any) and the
map without that binding. -/
def taxesRemove (taxes : List ((Date × String) × Cash)) (k : Date × String) :
    Option Cash × List ((Date × String) × Cash) :=
  match lookupTax taxes k with
  | some v => (some v, removeFirstTax taxes k)
  | none => (none, taxes)

/-- Model of `HashMap::insert`: returns the previous value (if any) and the
map with the new binding in place. -/
def taxesInsert (taxes : List ((Date × String) × Cash)) (k : Date × String) (v : Cash) :
    Option Cash × List ((Date × String) × Cash) :=
  match lookupTax taxes k with
  | some old => (some old, taxes.map (fun e => if e.1 = k then (k, v) else e))
  | none => (none, taxes ++ [(k, v)])

/-- Ticker-map insertion: replaces an existing binding for the symbol or
appends a new one (last write wins). -/
def tickersInsert (tickers : List (String × String)) (symbol description : String) :
    List (String × String) :=
  match tickers with
  | [] => [(symbol, description)]
  | e :: rest =>
    if e.1 = symbol then (symbol, description) :: rest
    else e :: tickersInsert rest symbol description

/- ## Record view and field lookup -/

/-- A data row bound to its table's declared field names. -/
structure Record where
  name : String
  fields : List String
  values : List String

/-- Model of `Record::get_value`: the position of the field name in the
declared list, offset by the two technical columns, indexes the row's
values; a missing name or a short row is a field-not-present error. -/
def Record.get_value (r : Record) (field : String) : Except String String :=
  match r.fields.findIdx? (fun other => other == field) with
  | some index =>
    match r.values.get? (index + 2) with
    | some value => .ok value
    | none => .error ("record doesn't have " ++ field ++ " field")
  | none => .error ("record doesn't have " ++ field ++ " field")

/-- Model of `format_record`: the row's fields joined for an error message. -/
def format_record (record : List String) : String :=
  String.intercalate ", " record

/-- The malformed-row error message. -/
def invalidRecordMsg (record : List String) : String :=
  "Invalid record: " ++ format_record record

/- ## Date and period parsing -/

/-- Model of `parse_date`: the numeric `%Y-%m-%d` field format; modelled
from the spec for the missing util module, which the source calls with
this format string. -/
def parse_date (s : String) : Except String Date :=
  match strSplitOn s "-" with
  | [y, m, d] =>
    match digitsToNat? y.toList, digitsToNat? m.toList, digitsToNat? d.toList with
    | some yn, some mn, some dn =>
      if validYmd (yn : Int) mn dn then .ok ⟨(yn : Int), mn, dn⟩
      else .error ("Invalid date: " ++ s)
    | _, _, _ => .error ("Invalid date: " ++ s)
  | _ => .error ("Invalid date: " ++ s)

/-- English month names, in order, for the `%B` format specifier. -/
def monthFromName (s : String) : Option Nat :=
  match s with
  | "January" => some 1
  | "February" => some 2
  | "March" => some 3
  | "April" => some 4
  | "May" => some 5
  | "June" => some 6
  | "July" => some 7
  | "August" => some 8
  | "September" => some 9
  | "October" => some 10
  | "November" => some 11
  | "December" => some 12
  | _ => none

/-- Model of `parse_period_date`: the human-readable `%B %d, %Y` period
date format (month name, day, year); modelled from the spec for the
missing util module, which the source calls with this format string. -/
def parse_period_date (s : String) : Except String Date :=
  match strSplitOn s ", " with
  | [monthDay, yearStr] =>
    match strSplitOn monthDay " " with
    | [monthName, dayStr] =>
      match monthFromName monthName, digitsToNat? dayStr.toList, digitsToNat? yearStr.toList with
      | some m, some d, some y =>
        if validYmd (y : Int) m d then .ok ⟨(y : Int), m, d⟩
        else .error ("Invalid date: " ++ s)
      | _, _, _ => .error ("Invalid date: " ++ s)
    | _ => .error ("Invalid date: " ++ s)
  | _ => .error ("Invalid date: " ++ s)

/-- Model of `parse_period`: splits the period string on " - "; one date
gives a one-day half-open interval, two dates give their inclusive span as
a half-open interval after rejecting an inverted pair, and any other
segment count is a format error. -/
def parse_period (period : String) : Except String (Date × Date) :=
  let dates := strSplitOn period " - "
  match dates with
  | [d] =>
    match parse_period_date d with
    | .ok date => .ok (date, date.nextDay)
    | .error e => .error e
  | [ds, de] =>
    match parse_period_date ds with
    | .ok start =>
      match parse_period_date de with
      | .ok endDate =>
        if endDate.ltB start then .error ("Invalid period: " ++ period)
        else .ok (start, endDate.nextDay)
      | .error e => .error e
    | .error e => .error e
  | _ => .error ("Invalid date: " ++ period)

/- ## Per-table handlers -/

/-- Model of `StatementInfoParser::parse`: on the "Period" field, parses
the period string and sets it on the builder. -/
def StatementInfoParser.parse (p : IbStatementParser) (record : Record) :
    Except String IbStatementParser :=
  match record.get_value "Field Name" with
  | .error e => .error e
  | .ok fieldName =>
    if fieldName = "Period" then
      match record.get_value "Field Value" with
      | .error e => .error e
      | .ok periodStr =>
        match parse_period periodStr with
        | .error e => .error e
        | .ok period =>
          match p.statement.set_period period with
          | .error e => .error e
          | .ok b => .ok { p with statement := b }
    else .ok p

/-- Model of `NetAssetValueParser::parse`: rows without an "Asset Class"
field are skipped; Cash and Stock rows accumulate "Current Total" into the
single-currency running total. -/
def NetAssetValueParser.parse (p : IbStatementParser) (record : Record) :
    Except String IbStatementParser :=
  match record.get_value "Asset Class" with
  | .error _ => .ok p
  | .ok assetClass =>
    if assetClass = "Cash" ∨ assetClass = "Stock" then
      match record.get_value "Current Total" with
      | .error e => .error e
      | .ok totalStr =>
        match Cash.new_from_string "USD" totalStr with
        | .error e => .error e
        | .ok amount =>
          let newAmount :=
            match p.statement.total_value with
            | some totalAmount => totalAmount.amount.add amount.amount
            | none => amount.amount
          .ok { p with statement :=
                  { p.statement with total_value := some (Cash.new "USD" newAmount) } }
    else .ok p

/-- Model of `WithholdingTaxParser::parse`: skips "Total" summary rows;
a zero amount is an error; a positive amount must cancel an equal pending
entry under the same (date, description) key, which it removes; a negative
amount registers its magnitude as a new pending entry, duplicates being an
error. -/
def WithholdingTaxParser.parse (p : IbStatementParser) (record : Record) :
    Except String IbStatementParser :=
  match record.get_value "Currency" with
  | .error e => .error e
  | .ok currency =>
    if currency = "Total" then .ok p
    else
      match record.get_value "Date" with
      | .error e => .error e
      | .ok dateStr =>
        match parse_date dateStr with
        | .error e => .error e
        | .ok date =>
          match record.get_value "Description" with
          | .error e => .error e
          | .ok description =>
            match record.get_value "Amount" with
            | .error e => .error e
            | .ok amountStr =>
              match Cash.new_from_string currency amountStr with
              | .error e => .error e
              | .ok tax =>
                if tax.amount.is_zero then .error "Invalid withholding tax"
                else if tax.amount.is_sign_positive then
                  match taxesRemove p.taxes (date, description) with
                  | (some cancelledTax, remaining) =>
                    if cancelledTax.eqb tax then .ok { p with taxes := remaining }
                    else .error "Invalid withholding tax"
                  | (none, _) => .error "Invalid withholding tax"
                else
                  let stored : Cash := { tax with amount := tax.amount.neg }
                  match taxesInsert p.taxes (date, description) stored with
                  | (some _, _) => .error "Got a duplicate withholding tax"
                  | (none, inserted) => .ok { p with taxes := inserted }

/-- Model of `DepositsParser::parse`: skips summary rows whose currency
starts with "Total"; otherwise parses the settle date and a strictly
positive amount and appends one deposit event. -/
def DepositsParser.parse (p : IbStatementParser) (record : Record) :
    Except String IbStatementParser :=
  match record.get_value "Currency" with
  | .error e => .error e
  | .ok currency =>
    if strStartsWith currency "Total" then .ok p
    else
      match record.get_value "Settle Date" with
      | .error e => .error e
      | .ok dateStr =>
        match parse_date dateStr with
        | .error e => .error e
        | .ok date =>
          match record.get_value "Amount" with
          | .error e => .error e
          | .ok amountStr =>
            match Cash.new_from_string_positive currency amountStr with
            | .error e => .error e
            | .ok amount =>
              .ok { p with statement :=
                      { p.statement with
                          deposits := p.statement.deposits ++ [⟨date, amount⟩] } }

/-- Model of `FinancialInstrumentInformationParser::parse`: records the
symbol-to-description binding, last write winning. -/
def FinancialInstrumentInformationParser.parse (p : IbStatementParser) (record : Record) :
    Except String IbStatementParser :=
  match record.get_value "Symbol" with
  | .error e => .error e
  | .ok symbol =>
    match record.get_value "Description" with
    | .error e => .error e
    | .ok description =>
      .ok { p with tickers := tickersInsert p.tickers symbol description }

/- ## Table handler registry and dispatch loop -/

/-- The closed set of table handlers: five concrete handlers plus the
fallback for unrecognized table names. -/
inductive TableHandler
  | statementInfo
  | netAssetValue
  | withholdingTax
  | deposits
  | financialInstrumentInformation
  | unknown
deriving DecidableEq, Repr

/-- Handler selection by exact table-name match, any other name falling
through to the no-op handler. -/
def selectHandler (name : String) : TableHandler :=
  if name = "Statement" then .statementInfo
  else if name = "Net Asset Value" then .netAssetValue
  else if name = "Withholding Tax" then .withholdingTax
  else if name = "Deposits & Withdrawals" then .deposits
  else if name = "Financial Instrument Information" then .financialInstrumentInformation
  else .unknown

/-- Model of `RecordParser::data_types`: the accepted data-row tags, the
default being exactly "Data"; the fallback handler accepts any tag. -/
def TableHandler.data_types : TableHandler → Option (List String)
  | .unknown => none
  | _ => some ["Data"]

/-- Dispatch from a handler to its extraction function. -/
def TableHandler.run : TableHandler → IbStatementParser → Record → Except String IbStatementParser
  | .statementInfo => StatementInfoParser.parse
  | .netAssetValue => NetAssetValueParser.parse
  | .withholdingTax => WithholdingTaxParser.parse
  | .deposits => DepositsParser.parse
  | .financialInstrumentInformation => FinancialInstrumentInformationParser.parse
  | .unknown => fun p _ => .ok p

/-- Model of `parse_header`: the table name is the first field and the
declared field names are every field from the third onward. -/
def parse_header (record : List String) : String × List String :=
  (record.getD 0 "", record.drop 2)

/-- Whether a data row's tag fails the handler's accepted-tag check. -/
def dataTypeMismatch (handler : TableHandler) (record : List String) : Bool :=
  match handler.data_types with
  | some dataTypes => !(dataTypes.contains (record.getD 1 ""))
  | none => false

/-- The control state of the dispatch loop, mirroring the source's `State`:
scanning between tables, holding a record awaiting classification, or
inside the table led by a header row. -/
inductive LoopState
  | scanning
  | record (r : List String)
  | header (r : List String)

/-- Measure used for the termination of the dispatch loop. -/
def LoopState.weight : LoopState → Nat
  | .scanning => 0
  | .header _ => 1
  | .record _ => 2

/-- The dispatch loop of `IbStatementParser::parse`, one step per row.
Besides the parse outcome it returns the trace of handler invocations:
each data row actually handed to a table handler, paired with the name of
the table that handler was selected for. -/
def parseLoop (p : IbStatementParser) (st : LoopState) (rows : List (List String)) :
    Except String IbStatementParser × List (String × List String) :=
  match st, rows with
  | .scanning, [] => (.ok p, [])
  | .scanning, r :: rest => parseLoop p (.record r) rest
  | .record r, rows =>
    if r.length < 2 then (.error (invalidRecordMsg r), [])
    else if r.getD 1 "" = "Header" then parseLoop p (.header r) rows
    else if r.getD 1 "" = "" then parseLoop p .scanning rows
    else (.error (invalidRecordMsg r), [])
  | .header _, [] => (.ok p, [])
  | .header hr, rec :: rest =>
    let (name, fields) := parse_header hr
    let handler := selectHandler name
    if rec.length < 2 then (.error (invalidRecordMsg rec), [])
    else if rec.getD 0 "" ≠ name then parseLoop p (.record rec) rest
    else if rec.getD 1 "" = "Header" then parseLoop p (.header rec) rest
    else if dataTypeMismatch handler rec then
      (.error ("Invalid data record type: " ++ format_record rec), [])
    else
      match handler.run p { name := name, fields := fields, values := rec } with
      | .error e => (.error ("Failed to parse record: " ++ e), [(name, rec)])
      | .ok p2 =>
        let (res, tr) := parseLoop p2 (.header hr) rest
        (res, (name, rec) :: tr)
termination_by 3 * rows.length + st.weight
decreasing_by
  all_goals simp [LoopState.weight]
  all_goals omega

/-- Model of `IbStatementParser::parse`: runs the dispatch loop over all
rows from a fresh parser state and finalizes the builder. -/
def IbStatementParser.parse (rows : List (List String)) : Except String BrokerStatement :=
  match (parseLoop IbStatementParser.new .scanning rows).1 with
  | .ok p => p.statement.get
  | .error e => .error e

/-- The handler-invocation trace of a full parse. -/
def IbStatementParser.parseTrace (rows : List (List String)) : List (String × List String) :=
  (parseLoop IbStatementParser.new .scanning rows).2

/-- Runs a single table handler over a list of records in order,
fail-fast, as the dispatch loop does for the data rows of one table
region. -/
def runRecords (f : IbStatementParser → Record → Except String IbStatementParser)
    (p : IbStatementParser) : List Record → Except String IbStatementParser
  | [] => .ok p
  | r :: rest =>
    match f p r with
    | .ok p2 => runRecords f p2 rest
    | .error e => .error e

/- ## Helper definitions and lemmas for the comparator -/

/-- Total version of the per-currency comparison loop, computing the log
lines directly; a lemma below shows it agrees with `compareCurrencies`,
whose error case is unreachable. -/
def compareLogsTotal (calculated actual : MultiCurrencyCashAccount) (level : LogLevel)
    (date : Date) : List String → Bool → List LogEntry
  | [], _ => []
  | currency :: restCurrencies, reported =>
    let calculatedAmount := (calculated.get currency).getD (Cash.new currency Decimal.zero)
    let actualAmount := (actual.get currency).getD (Cash.new currency Decimal.zero)
    if calculatedAmount.eqb actualAmount then
      compareLogsTotal calculated actual level date restCurrencies reported
    else
      match calculatedAmount.sub actualAmount with
      | none => []
      | some diff =>
        (if reported then [] else [.header level date]) ++
          [.mismatch level calculatedAmount actualAmount diff] ++
          compareLogsTotal calculated actual level date restCurrencies true

theorem getD_currency (a : MultiCurrencyCashAccount) (currency : String) :
    ((a.get currency).getD (Cash.new currency Decimal.zero)).currency = currency := by
  unfold MultiCurrencyCashAccount.get
  cases a.assets.lookup currency <;> simp [Cash.new]

theorem compareCurrencies_eq_total (calculated actual : MultiCurrencyCashAccount)
    (level : LogLevel) (date : Date) :
    ∀ (l : List String) (reported : Bool),
      compareCurrencies calculated actual level date l reported =
        .ok (compareLogsTotal calculated actual level date l reported) := by
  intro l
  induction l with
  | nil => intro reported; rfl
  | cons currency restCurrencies ih =>
    intro reported
    have hsub :
        Cash.sub ((calculated.get currency).getD (Cash.new currency Decimal.zero))
            ((actual.get currency).getD (Cash.new currency Decimal.zero)) =
          some ⟨currency,
            Decimal.sub ((calculated.get currency).getD (Cash.new currency Decimal.zero)).amount
              ((actual.get currency).getD (Cash.new currency Decimal.zero)).amount⟩ := by
      rw [Cash.sub, if_pos]
      · rw [getD_currency]
      · rw [getD_currency, getD_currency]
    simp only [compareCurrencies, compareLogsTotal]
    by_cases heq :
        (((calculated.get currency).getD (Cash.new currency Decimal.zero)).eqb
          ((actual.get currency).getD (Cash.new currency Decimal.zero))) = true
    · simp [heq, ih]
    · simp [heq, hsub, ih]

theorem compare_never_errors (c : CashAssetsComparator) (date : Date)
    (calculated : MultiCurrencyCashAccount) :
    ∃ result, c.compare date calculated = .ok result := by
  unfold CashAssetsComparator.compare
  cases hn : c.next with
  | none => exact ⟨_, rfl⟩
  | some entry =>
    by_cases hlt : entry.1 < date
    · simp [hlt, compareCurrencies_eq_total]
    · simp [hlt]

theorem compare_exhausted (c : CashAssetsComparator) (date : Date)
    (calculated : MultiCurrencyCashAccount) (h : c.next = none) :
    c.compare date calculated = .ok (true, c, []) := by
  simp [CashAssetsComparator.compare, h]

theorem compare_eq_of_lt (c : CashAssetsComparator) (date : Date)
    (calculated : MultiCurrencyCashAccount) (entryDate : Date)
    (actual : MultiCurrencyCashAccount)
    (hn : c.next = some (entryDate, actual)) (hlt : entryDate < date) :
    c.compare date calculated =
      .ok (c.rest.head?.isNone,
        { next := c.rest.head?, rest := c.rest.tail,
          currencies :=
            hsExtend (hsExtend c.currencies actual.currencyList) calculated.currencyList },
        compareLogsTotal calculated actual
          (if c.rest.head?.isSome then LogLevel.debug else LogLevel.warn) entryDate
          (sortCurrencies
            (hsExtend (hsExtend c.currencies actual.currencyList) calculated.currencyList))
          false) := by
  unfold CashAssetsComparator.compare
  rw [hn]
  simp [hlt, compareCurrencies_eq_total, CashAssetsComparator.advance]

theorem compare_eq_of_ge (c : CashAssetsComparator) (date : Date)
    (calculated : MultiCurrencyCashAccount) (entryDate : Date)
    (actual : MultiCurrencyCashAccount)
    (hn : c.next = some (entryDate, actual)) (hge : ¬ entryDate < date) :
    c.compare date calculated = .ok (false, c, []) := by
  unfold CashAssetsComparator.compare
  rw [hn]
  simp [hge]

theorem compare_flag_iff (c : CashAssetsComparator) (date : Date)
    (calculated : MultiCurrencyCashAccount) (flag : Bool) (c2 : CashAssetsComparator)
    (logs : List LogEntry)
    (h : c.compare date calculated = .ok (flag, c2, logs)) :
    flag = true ↔ c2.next = none := by
  cases hn : c.next with
  | none =>
    rw [compare_exhausted c date calculated hn] at h
    simp only [Except.ok.injEq, Prod.mk.injEq] at h
    obtain ⟨hf, hc, -⟩ := h
    subst hf hc
    simp [hn]
  | some entry =>
    obtain ⟨entryDate, actual⟩ := entry
    by_cases hlt : entryDate < date
    · rw [compare_eq_of_lt c date calculated entryDate actual hn hlt] at h
      simp only [Except.ok.injEq, Prod.mk.injEq] at h
      obtain ⟨hf, hc, -⟩ := h
      subst hf hc
      simp [Option.isNone_iff_eq_none]
    · rw [compare_eq_of_ge c date calculated entryDate actual hn hlt] at h
      simp only [Except.ok.injEq, Prod.mk.injEq] at h
      obtain ⟨hf, hc, -⟩ := h
      subst hf hc
      simp [hn]

theorem runCompares_exhausted (checkpoints : List (Date × MultiCurrencyCashAccount)) :
    ∀ (c : CashAssetsComparator), c.next = none →
      ∀ step ∈ runCompares c checkpoints, step.1 = true := by
  induction checkpoints with
  | nil => intro c _ step hstep; simp [runCompares] at hstep
  | cons cp rest ih =>
    intro c hc step hstep
    rw [runCompares, compare_exhausted c cp.1 cp.2 hc] at hstep
    rcases List.mem_cons.mp hstep with h | h
    · rw [h]
    · exact ih c hc step h

/- ## Claim theorems for the comparator -/

/-- C9: for every call `compare(query_date, computed_balance)` on any
historical series and any computed balances, `compare` returns normally
with a boolean result and never fails or panics; in particular the
subtraction unwrapped when logging a mismatch (modelled as the error case
of `compare`) always succeeds, because both amounts carry the same
currency code. -/
theorem compare_never_fails (c : CashAssetsComparator) (date : Date)
    (calculated : MultiCurrencyCashAccount) :
    ∃ result, c.compare date calculated = .ok result := by
  exact compare_never_errors c date calculated

/-- C10: if the historical series is not exhausted but the earliest
unconsumed historical entry's date is at least `query_date`, then
`compare` returns `false` without advancing the cursor, without changing
the accumulated currency set (the state is returned unchanged), and
without logging anything. -/
theorem compare_frame_when_not_due (c : CashAssetsComparator) (date : Date)
    (calculated : MultiCurrencyCashAccount) (entryDate : Date)
    (actual : MultiCurrencyCashAccount)
    (hnext : c.next = some (entryDate, actual)) (hge : ¬ entryDate < date) :
    c.compare date calculated = .ok (false, c, []) :=
  compare_eq_of_ge c date calculated entryDate actual hnext hge

/-- Witness for C10 at a concrete comparator whose pending entry is dated
after the checkpoint. -/
theorem compare_frame_when_not_due_witness :
    CashAssetsComparator.compare
        ⟨some (⟨2018, 1, 2⟩, ⟨[("USD", ⟨5, 0⟩)]⟩), [], []⟩
        ⟨2018, 1, 1⟩ ⟨[("USD", ⟨7, 0⟩)]⟩ =
      .ok (false, ⟨some (⟨2018, 1, 2⟩, ⟨[("USD", ⟨5, 0⟩)]⟩), [], []⟩, []) :=
  compare_frame_when_not_due
    ⟨some (⟨2018, 1, 2⟩, ⟨[("USD", ⟨5, 0⟩)]⟩), [], []⟩
    ⟨2018, 1, 1⟩ ⟨[("USD", ⟨7, 0⟩)]⟩ ⟨2018, 1, 2⟩ ⟨[("USD", ⟨5, 0⟩)]⟩
    (by decide) (by decide)

/-- C7: across a run of compare calls, every returned flag is true exactly
when the historical cursor is past the last historical entry after that
call, and once a call has returned true every later call in the run also
returns true. -/
theorem exhaustion_flag_monotone (c : CashAssetsComparator)
    (checkpoints : List (Date × MultiCurrencyCashAccount)) :
    (∀ step ∈ runCompares c checkpoints, (step.1 = true ↔ step.2.next = none)) ∧
    (∀ pre step post, runCompares c checkpoints = pre ++ step :: post →
        step.1 = true → ∀ later ∈ post, later.1 = true) := by
  constructor
  · induction checkpoints generalizing c with
    | nil => intro step hstep; simp [runCompares] at hstep
    | cons cp rest ih =>
      intro step hstep
      obtain ⟨⟨flag, c2, logs⟩, hok⟩ := compare_never_errors c cp.1 cp.2
      rw [runCompares, hok] at hstep
      rcases List.mem_cons.mp hstep with h | h
      · rw [h]
        exact compare_flag_iff c cp.1 cp.2 flag c2 logs hok
      · exact ih c2 step h
  · induction checkpoints generalizing c with
    | nil =>
      intro pre step post heq
      simp [runCompares] at heq
    | cons cp rest ih =>
      intro pre step post heq hflag later hlater
      obtain ⟨⟨flag, c2, logs⟩, hok⟩ := compare_never_errors c cp.1 cp.2
      rw [runCompares, hok] at heq
      cases pre with
      | nil =>
        simp only [List.nil_append, List.cons.injEq] at heq
        obtain ⟨hstep, hpost⟩ := heq
        have hc2 : c2.next = none := by
          have hiff := compare_flag_iff c cp.1 cp.2 flag c2 logs hok
          have : flag = true := by rw [← hstep] at hflag; exact hflag
          exact hiff.mp this
        subst hpost
        exact runCompares_exhausted rest c2 hc2 later hlater
      | cons q pre2 =>
        simp only [List.cons_append, List.cons.injEq] at heq
        exact ih c2 pre2 step post heq.2 hflag later hlater

/-- Witness for C7 on a concrete one-entry historical series with two
checkpoints: the first call exhausts the series and returns true, and the
second call also returns true. -/
theorem exhaustion_flag_monotone_witness :
    ((true, (⟨none, [], []⟩ : CashAssetsComparator)).1 = true ↔
      ((true, (⟨none, [], []⟩ : CashAssetsComparator)).2.next = none)) ∧
    (true, (⟨none, [], []⟩ : CashAssetsComparator)).1 = true := by
  constructor
  · exact (exhaustion_flag_monotone (CashAssetsComparator.new [(⟨2018, 1, 1⟩, ⟨[]⟩)])
      [(⟨2018, 1, 2⟩, ⟨[]⟩), (⟨2018, 1, 3⟩, ⟨[]⟩)]).1
      (true, ⟨none, [], []⟩) (by decide)
  · exact (exhaustion_flag_monotone (CashAssetsComparator.new [(⟨2018, 1, 1⟩, ⟨[]⟩)])
      [(⟨2018, 1, 2⟩, ⟨[]⟩), (⟨2018, 1, 3⟩, ⟨[]⟩)]).2
      [] (true, ⟨none, [], []⟩) [(true, ⟨none, [], []⟩)] (by decide) (by decide)
      (true, ⟨none, [], []⟩) (by decide)

/-- C1 counterexample: with two historical entries (2018-01-01 and
2018-01-02) both strictly before the query date 2018-01-03, a single
compare call advances the cursor only one step — afterwards the cursor
still holds the entry dated 2018-01-02, which is strictly less than the
query date — and the balance compared against the computed one is the
first entry's (the comparison logs show the first entry's USD 5, and the
call returns false rather than the exhaustion the claimed while-loop
advancing would produce). This contradicts the claim that the cursor is
advanced while its current date is strictly less than the query date and
that the entry reached by that advancing is the one compared. -/
theorem compare_advances_once_counterexample :
    CashAssetsComparator.compare
        (CashAssetsComparator.new
          [(⟨2018, 1, 1⟩, ⟨[("USD", ⟨5, 0⟩)]⟩), (⟨2018, 1, 2⟩, ⟨[]⟩)])
        ⟨2018, 1, 3⟩ ⟨[("USD", ⟨9, 0⟩)]⟩ =
      .ok (false,
        { next := some (⟨2018, 1, 2⟩, ⟨[]⟩), rest := [], currencies := ["USD"] },
        [.header .debug ⟨2018, 1, 1⟩,
         .mismatch .debug ⟨"USD", ⟨9, 0⟩⟩ ⟨"USD", ⟨5, 0⟩⟩ ⟨"USD", ⟨4, 0⟩⟩]) ∧
    (⟨2018, 1, 2⟩ : Date) < ⟨2018, 1, 3⟩ := by
  constructor
  · decide
  · decide

/-- C1 amended: when the cursor's current entry is dated strictly before
`query_date`, `compare` advances the cursor exactly one step and uses that
current (pre-advance) entry as the "actual" balance for the comparison;
when the current entry is not yet due, no comparison work happens and the
call returns false; when the series is exhausted, no comparison work
happens and the call returns the exhaustion flag true. -/
theorem compare_advances_once (c : CashAssetsComparator) (date : Date)
    (calculated : MultiCurrencyCashAccount) :
    (∀ entryDate actual, c.next = some (entryDate, actual) → entryDate < date →
      c.compare date calculated =
        .ok (c.rest.head?.isNone,
          { next := c.rest.head?, rest := c.rest.tail,
            currencies :=
              hsExtend (hsExtend c.currencies actual.currencyList) calculated.currencyList },
          compareLogsTotal calculated actual
            (if c.rest.head?.isSome then LogLevel.debug else LogLevel.warn) entryDate
            (sortCurrencies
              (hsExtend (hsExtend c.currencies actual.currencyList) calculated.currencyList))
            false)) ∧
    (∀ entryDate actual, c.next = some (entryDate, actual) → ¬ entryDate < date →
      c.compare date calculated = .ok (false, c, [])) ∧
    (c.next = none → c.compare date calculated = .ok (true, c, [])) := by
  refine ⟨?_, ?_, ?_⟩
  · intro entryDate actual hn hlt
    exact compare_eq_of_lt c date calculated entryDate actual hn hlt
  · intro entryDate actual hn hge
    exact compare_eq_of_ge c date calculated entryDate actual hn hge
  · intro hn
    exact compare_exhausted c date calculated hn

/-- Witness for the amended C1 at the counterexample input: the advancing
branch applies and produces exactly one cursor step, with the pre-advance
entry compared. -/
theorem compare_advances_once_witness :
    CashAssetsComparator.compare
        (CashAssetsComparator.new
          [(⟨2018, 1, 1⟩, ⟨[("USD", ⟨5, 0⟩)]⟩), (⟨2018, 1, 2⟩, ⟨[]⟩)])
        ⟨2018, 1, 3⟩ ⟨[("USD", ⟨9, 0⟩)]⟩ =
      .ok (false,
        { next := some (⟨2018, 1, 2⟩, ⟨[]⟩), rest := [], currencies := ["USD"] },
        [.header .debug ⟨2018, 1, 1⟩,
         .mismatch .debug ⟨"USD", ⟨9, 0⟩⟩ ⟨"USD", ⟨5, 0⟩⟩ ⟨"USD", ⟨4, 0⟩⟩]) := by
  have h :=
    (compare_advances_once
      (CashAssetsComparator.new
        [(⟨2018, 1, 1⟩, ⟨[("USD", ⟨5, 0⟩)]⟩), (⟨2018, 1, 2⟩, ⟨[]⟩)])
      ⟨2018, 1, 3⟩ ⟨[("USD", ⟨9, 0⟩)]⟩).1
      ⟨2018, 1, 1⟩ ⟨[("USD", ⟨5, 0⟩)]⟩ (by decide) (by decide)
  rw [h]
  decide

/- ## Helper lemmas for the pending-tax map -/

/-- The keys currently pending in the tax map. -/
def taxKeys (taxes : List ((Date × String) × Cash)) : List (Date × String) :=
  taxes.map Prod.fst

theorem taxKeys_append (l1 l2 : List ((Date × String) × Cash)) :
    taxKeys (l1 ++ l2) = taxKeys l1 ++ taxKeys l2 := by
  simp [taxKeys]

theorem lookupTax_none_iff (l : List ((Date × String) × Cash)) (k : Date × String) :
    lookupTax l k = none ↔ k ∉ taxKeys l := by
  induction l with
  | nil => simp [lookupTax, taxKeys]
  | cons e rest ih =>
    by_cases h : e.1 = k
    · simp [lookupTax, h, taxKeys]
    · rw [lookupTax, if_neg h, ih]
      simp only [taxKeys, List.map_cons, List.mem_cons, not_or]
      constructor
      · intro hk
        exact ⟨fun hh => h hh.symm, hk⟩
      · intro hk
        exact hk.2

theorem lookupTax_some_mem (l : List ((Date × String) × Cash)) (k : Date × String)
    (v : Cash) (h : lookupTax l k = some v) : k ∈ taxKeys l := by
  by_contra hmem
  rw [← lookupTax_none_iff] at hmem
  rw [h] at hmem
  exact Option.some_ne_none v hmem

theorem removeFirstTax_sublist (l : List ((Date × String) × Cash)) (k : Date × String) :
    List.Sublist (removeFirstTax l k) l := by
  induction l with
  | nil => simp [removeFirstTax]
  | cons e rest ih =>
    by_cases h : e.1 = k
    · simp only [removeFirstTax, if_pos h]
      exact List.sublist_cons_self e rest
    · simp only [removeFirstTax, if_neg h]
      exact List.Sublist.cons₂ e ih

theorem nodup_removeFirstTax (l : List ((Date × String) × Cash)) (k : Date × String)
    (h : (taxKeys l).Nodup) : (taxKeys (removeFirstTax l k)).Nodup :=
  List.Nodup.sublist (List.Sublist.map Prod.fst (removeFirstTax_sublist l k)) h

theorem not_mem_removeFirstTax (l : List ((Date × String) × Cash)) (k : Date × String)
    (h : (taxKeys l).Nodup) : k ∉ taxKeys (removeFirstTax l k) := by
  induction l with
  | nil => simp [removeFirstTax, taxKeys]
  | cons e rest ih =>
    simp only [taxKeys, List.map_cons, List.nodup_cons] at h
    by_cases he : e.1 = k
    · simp only [removeFirstTax, if_pos he]
      rw [← he]
      exact fun hmem => h.1 hmem
    · simp only [removeFirstTax, if_neg he, taxKeys, List.map_cons, List.mem_cons]
      intro hmem
      rcases hmem with hh | hh
      · exact he hh.symm
      · exact ih h.2 hh

theorem mem_removeFirstTax_of_ne (l : List ((Date × String) × Cash))
    (k k2 : Date × String) (hne : k2 ≠ k) :
    k2 ∈ taxKeys (removeFirstTax l k) ↔ k2 ∈ taxKeys l := by
  induction l with
  | nil => simp [removeFirstTax]
  | cons e rest ih =>
    by_cases he : e.1 = k
    · simp only [removeFirstTax, if_pos he, taxKeys, List.map_cons, List.mem_cons]
      constructor
      · intro h; exact Or.inr h
      · intro h
        rcases h with hh | hh
        · exact absurd (hh.trans he) hne
        · exact hh
    · simp only [removeFirstTax, if_neg he, taxKeys, List.map_cons, List.mem_cons]
      rw [show (taxKeys (removeFirstTax rest k) = List.map Prod.fst (removeFirstTax rest k))
            from rfl] at ih
      rw [show (taxKeys rest = List.map Prod.fst rest) from rfl] at ih
      rw [ih]

theorem lookupTax_append_single_none (l : List ((Date × String) × Cash))
    (k : Date × String) (v : Cash) (h : lookupTax l k = none) :
    lookupTax (l ++ [(k, v)]) k = some v := by
  induction l with
  | nil => simp [lookupTax]
  | cons e rest ih =>
    rw [lookupTax] at h
    by_cases he : e.1 = k
    · rw [if_pos he] at h; exact absurd h (Option.some_ne_none e.2)
    · rw [if_neg he] at h
      simp only [List.cons_append, lookupTax, if_neg he]
      exact ih h

theorem removeFirstTax_append_single (l : List ((Date × String) × Cash))
    (k : Date × String) (v : Cash) (h : lookupTax l k = none) :
    removeFirstTax (l ++ [(k, v)]) k = l := by
  induction l with
  | nil => simp [removeFirstTax]
  | cons e rest ih =>
    rw [lookupTax] at h
    by_cases he : e.1 = k
    · rw [if_pos he] at h; exact absurd h (Option.some_ne_none e.2)
    · rw [if_neg he] at h
      rw [show (e :: rest) ++ [(k, v)] = e :: (rest ++ [(k, v)]) from rfl,
        removeFirstTax, if_neg he, ih h]

/- ## Helper lemmas about decimal signs and money parsing -/

theorem pow10_pos (n : Nat) : 0 < pow10 n := by
  unfold pow10
  exact_mod_cast Nat.pos_pow_of_pos n (by omega)

theorem Decimal.eqb_pos_iff (a b : Decimal) (h : a.eqb b = true) :
    (0 < a.mantissa ↔ 0 < b.mantissa) := by
  unfold Decimal.eqb at h
  rw [beq_iff_eq] at h
  have hpa := pow10_pos b.scale
  have hpb := pow10_pos a.scale
  constructor
  · intro hlt
    nlinarith [mul_pos hlt hpa]
  · intro hlt
    nlinarith [mul_pos hlt hpb]

theorem Decimal.eqb_zero_iff (a b : Decimal) (h : a.eqb b = true) :
    (a.mantissa = 0 ↔ b.mantissa = 0) := by
  unfold Decimal.eqb at h
  rw [beq_iff_eq] at h
  have hpa := pow10_pos b.scale
  have hpb := pow10_pos a.scale
  constructor
  · intro h0
    rw [h0, zero_mul] at h
    rcases mul_eq_zero.mp h.symm with hh | hh
    · exact hh
    · exact absurd hh (by omega)
  · intro h0
    rw [h0, zero_mul] at h
    rcases mul_eq_zero.mp h with hh | hh
    · exact hh
    · exact absurd hh (by omega)

theorem new_from_string_shape (c s : String) (t : Cash)
    (h : Cash.new_from_string c s = .ok t) :
    ∃ d, parseDecimal s = some d ∧ t = ⟨c, d⟩ := by
  unfold Cash.new_from_string at h
  cases hp : parseDecimal s with
  | none => rw [hp] at h; exact absurd h (by simp)
  | some d =>
    rw [hp] at h
    simp only [Except.ok.injEq] at h
    exact ⟨d, rfl, h.symm⟩

/- ## Claim theorems for the withholding-tax handler -/

theorem withholding_parse_unfold (p : IbStatementParser) (record : Record)
    (currency dateStr description amountStr : String) (date : Date) (tax : Cash)
    (hcur : record.get_value "Currency" = .ok currency)
    (hct : currency ≠ "Total")
    (hdate : record.get_value "Date" = .ok dateStr)
    (hdp : parse_date dateStr = .ok date)
    (hdesc : record.get_value "Description" = .ok description)
    (hamt : record.get_value "Amount" = .ok amountStr)
    (htax : Cash.new_from_string currency amountStr = .ok tax) :
    WithholdingTaxParser.parse p record =
      (if tax.amount.is_zero then .error "Invalid withholding tax"
       else if tax.amount.is_sign_positive then
         match taxesRemove p.taxes (date, description) with
         | (some cancelledTax, remaining) =>
           if cancelledTax.eqb tax then .ok { p with taxes := remaining }
           else .error "Invalid withholding tax"
         | (none, _) => .error "Invalid withholding tax"
       else
         match taxesInsert p.taxes (date, description) { tax with amount := tax.amount.neg } with
         | (some _, _) => .error "Got a duplicate withholding tax"
         | (none, inserted) => .ok { p with taxes := inserted }) := by
  simp only [WithholdingTaxParser.parse, hcur, hdate, hdp, hdesc, hamt, htax]
  rw [if_neg hct]

/-- C2: rules of the withholding-tax handler for a non-"Total" data row
whose fields parse, stated on the row's parsed money amount `tax`:
a zero amount always fails; a strictly positive amount succeeds exactly
when a pending entry under the same (date, description) key is stored
whose value equals it, removing that entry, and fails otherwise; a
strictly negative amount registers its positive magnitude as a pending
entry under the key and fails if one already exists; and hence a negative
entry followed by an exactly matching positive entry for the same key
succeeds and leaves the pending map exactly as it started (with no entry
for that key). -/
theorem withholding_tax_row_rules (p : IbStatementParser) (record : Record)
    (currency dateStr description amountStr : String) (date : Date) (tax : Cash)
    (hcur : record.get_value "Currency" = .ok currency)
    (hct : currency ≠ "Total")
    (hdate : record.get_value "Date" = .ok dateStr)
    (hdp : parse_date dateStr = .ok date)
    (hdesc : record.get_value "Description" = .ok description)
    (hamt : record.get_value "Amount" = .ok amountStr)
    (htax : Cash.new_from_string currency amountStr = .ok tax) :
    (tax.amount.mantissa = 0 →
      WithholdingTaxParser.parse p record = .error "Invalid withholding tax") ∧
    (0 < tax.amount.mantissa →
      (∀ stored, lookupTax p.taxes (date, description) = some stored →
        (stored.eqb tax = true →
          WithholdingTaxParser.parse p record =
            .ok { p with taxes := removeFirstTax p.taxes (date, description) }) ∧
        (stored.eqb tax = false →
          WithholdingTaxParser.parse p record = .error "Invalid withholding tax")) ∧
      (lookupTax p.taxes (date, description) = none →
        WithholdingTaxParser.parse p record = .error "Invalid withholding tax")) ∧
    (tax.amount.mantissa < 0 →
      (lookupTax p.taxes (date, description) = none →
        WithholdingTaxParser.parse p record =
          .ok { p with taxes :=
                  p.taxes ++ [((date, description), { tax with amount := tax.amount.neg })] }) ∧
      (∀ stored, lookupTax p.taxes (date, description) = some stored →
        WithholdingTaxParser.parse p record = .error "Got a duplicate withholding tax")) ∧
    (tax.amount.mantissa < 0 →
      lookupTax p.taxes (date, description) = none →
      ∀ (record2 : Record) (amountStr2 : String) (tax2 : Cash),
        record2.get_value "Currency" = .ok currency →
        record2.get_value "Date" = .ok dateStr →
        record2.get_value "Description" = .ok description →
        record2.get_value "Amount" = .ok amountStr2 →
        Cash.new_from_string currency amountStr2 = .ok tax2 →
        Cash.eqb { tax with amount := tax.amount.neg } tax2 = true →
        ∃ p1, WithholdingTaxParser.parse p record = .ok p1 ∧
          WithholdingTaxParser.parse p1 record2 = .ok p) := by
  have hwu := withholding_parse_unfold p record currency dateStr description amountStr date tax
    hcur hct hdate hdp hdesc hamt htax
  refine ⟨?_, ?_, ?_, ?_⟩
  · intro h0
    have hz : tax.amount.is_zero = true := by
      simp only [Decimal.is_zero, beq_iff_eq]
      exact h0
    rw [hwu, if_pos hz]
  · intro hm
    have hz : tax.amount.is_zero = false := by
      simp only [Decimal.is_zero, beq_eq_false_iff_ne, ne_eq]
      omega
    have hs : tax.amount.is_sign_positive = true := by
      simp only [Decimal.is_sign_positive, decide_eq_true_eq]
      omega
    constructor
    · intro stored hlook
      have hrem : taxesRemove p.taxes (date, description) =
          (some stored, removeFirstTax p.taxes (date, description)) := by
        rw [taxesRemove, hlook]
      constructor
      · intro heqb
        rw [hwu, if_neg (by rw [hz]; exact Bool.false_ne_true), if_pos hs]
        simp only [hrem, heqb, if_pos]
      · intro heqb
        rw [hwu, if_neg (by rw [hz]; exact Bool.false_ne_true), if_pos hs]
        simp only [hrem, heqb]
        simp
    · intro hlook
      have hrem : taxesRemove p.taxes (date, description) =
          (none, p.taxes) := by
        rw [taxesRemove, hlook]
      rw [hwu, if_neg (by rw [hz]; exact Bool.false_ne_true), if_pos hs]
      simp only [hrem]
  · intro hm
    have hz : tax.amount.is_zero = false := by
      simp only [Decimal.is_zero, beq_eq_false_iff_ne, ne_eq]
      omega
    have hs : tax.amount.is_sign_positive = false := by
      simp only [Decimal.is_sign_positive, decide_eq_false_iff_not]
      omega
    constructor
    · intro hlook
      have hins : taxesInsert p.taxes (date, description) { tax with amount := tax.amount.neg } =
          (none, p.taxes ++ [((date, description), { tax with amount := tax.amount.neg })]) := by
        rw [taxesInsert, hlook]
      rw [hwu, if_neg (by rw [hz]; exact Bool.false_ne_true),
        if_neg (by rw [hs]; exact Bool.false_ne_true)]
      simp only [hins]
    · intro stored hlook
      have hins : taxesInsert p.taxes (date, description) { tax with amount := tax.amount.neg } =
          (some stored, p.taxes.map
            (fun e => if e.1 = (date, description)
              then ((date, description), { tax with amount := tax.amount.neg }) else e)) := by
        rw [taxesInsert, hlook]
      rw [hwu, if_neg (by rw [hz]; exact Bool.false_ne_true),
        if_neg (by rw [hs]; exact Bool.false_ne_true)]
      simp only [hins]
  · intro hm hlook record2 amountStr2 tax2 hcur2 hdate2 hdesc2 hamt2 htax2 hmatch
    have hz : tax.amount.is_zero = false := by
      simp only [Decimal.is_zero, beq_eq_false_iff_ne, ne_eq]
      omega
    have hs : tax.amount.is_sign_positive = false := by
      simp only [Decimal.is_sign_positive, decide_eq_false_iff_not]
      omega
    have hins : taxesInsert p.taxes (date, description) { tax with amount := tax.amount.neg } =
        (none, p.taxes ++ [((date, description), { tax with amount := tax.amount.neg })]) := by
      rw [taxesInsert, hlook]
    have hstep1 : WithholdingTaxParser.parse p record =
        .ok { p with taxes :=
                p.taxes ++ [((date, description), { tax with amount := tax.amount.neg })] } := by
      rw [hwu, if_neg (by rw [hz]; exact Bool.false_ne_true),
        if_neg (by rw [hs]; exact Bool.false_ne_true)]
      simp only [hins]
    refine ⟨_, hstep1, ?_⟩
    set p1 : IbStatementParser :=
      { p with taxes :=
          p.taxes ++ [((date, description), { tax with amount := tax.amount.neg })] } with hp1
    have hwu2 := withholding_parse_unfold p1 record2 currency dateStr description amountStr2
      date tax2 hcur2 hct hdate2 hdp hdesc2 hamt2 htax2
    have hdec : Decimal.eqb (tax.amount.neg) tax2.amount = true := by
      have := hmatch
      simp only [Cash.eqb, Bool.and_eq_true] at this
      exact this.2
    have hm2 : 0 < tax2.amount.mantissa := by
      have hpos : 0 < (Decimal.neg tax.amount).mantissa := by
        simp only [Decimal.neg]
        omega
      exact (Decimal.eqb_pos_iff (tax.amount.neg) tax2.amount hdec).mp hpos
    have hz2 : tax2.amount.is_zero = false := by
      simp only [Decimal.is_zero, beq_eq_false_iff_ne, ne_eq]
      omega
    have hs2 : tax2.amount.is_sign_positive = true := by
      simp only [Decimal.is_sign_positive, decide_eq_true_eq]
      omega
    have hlook1 : lookupTax p1.taxes (date, description) =
        some { tax with amount := tax.amount.neg } := by
      rw [hp1]
      exact lookupTax_append_single_none p.taxes (date, description) _ hlook
    have hrem1 : taxesRemove p1.taxes (date, description) =
        (some { tax with amount := tax.amount.neg }, p.taxes) := by
      rw [taxesRemove, hlook1, hp1]
      rw [removeFirstTax_append_single p.taxes (date, description) _ hlook]
    rw [hwu2, if_neg (by rw [hz2]; exact Bool.false_ne_true), if_pos hs2]
    simp only [hrem1, hmatch, if_pos]

/-- Witness for C2: a concrete negative withholding-tax row followed by
its exactly matching positive row leaves the fresh parser's pending map
empty and succeeds. -/
theorem withholding_tax_row_rules_witness :
    ∃ p1, WithholdingTaxParser.parse IbStatementParser.new
        { name := "Withholding Tax",
          fields := ["Currency", "Date", "Description", "Amount"],
          values := ["Withholding Tax", "Data", "USD", "2018-03-01", "X", "-10.00"] } =
      .ok p1 ∧
      WithholdingTaxParser.parse p1
        { name := "Withholding Tax",
          fields := ["Currency", "Date", "Description", "Amount"],
          values := ["Withholding Tax", "Data", "USD", "2018-03-01", "X", "10.00"] } =
      .ok IbStatementParser.new :=
  (withholding_tax_row_rules IbStatementParser.new
      { name := "Withholding Tax",
        fields := ["Currency", "Date", "Description", "Amount"],
        values := ["Withholding Tax", "Data", "USD", "2018-03-01", "X", "-10.00"] }
      "USD" "2018-03-01" "X" "-10.00" ⟨2018, 3, 1⟩ ⟨"USD", ⟨-1000, 2⟩⟩
      (by decide) (by decide) (by decide) (by decide) (by decide) (by decide)
      (by decide)).2.2.2
    (by decide) (by decide)
    { name := "Withholding Tax",
      fields := ["Currency", "Date", "Description", "Amount"],
      values := ["Withholding Tax", "Data", "USD", "2018-03-01", "X", "10.00"] }
    "10.00" ⟨"USD", ⟨1000, 2⟩⟩
    (by decide) (by decide) (by decide) (by decide) (by decide) (by decide)

/- ## Claim theorems for the pending-tax invariant -/

/-- The parsed view of a withholding-tax row: its currency, event date,
description and decimal amount, when every field parses. -/
def taxRowView (record : Record) : Option (String × Date × String × Decimal) :=
  match record.get_value "Currency" with
  | .error _ => none
  | .ok currency =>
    match record.get_value "Date" with
    | .error _ => none
    | .ok dateStr =>
      match parse_date dateStr with
      | .error _ => none
      | .ok date =>
        match record.get_value "Description" with
        | .error _ => none
        | .ok description =>
          match record.get_value "Amount" with
          | .error _ => none
          | .ok amountStr =>
            match parseDecimal amountStr with
            | some q => some (currency, date, description, q)
            | none => none

theorem taxRowView_currency (record : Record) (cur : String) (d : Date) (desc : String)
    (q : Decimal) (hview : taxRowView record = some (cur, d, desc, q)) :
    record.get_value "Currency" = .ok cur := by
  unfold taxRowView at hview
  cases hcur : record.get_value "Currency" with
  | error e => simp only [hcur] at hview; exact Option.noConfusion hview
  | ok currency =>
    simp only [hcur] at hview
    cases hdate : record.get_value "Date" with
    | error e => simp only [hdate] at hview; exact Option.noConfusion hview
    | ok dateStr =>
      simp only [hdate] at hview
      cases hdp : parse_date dateStr with
      | error e => simp only [hdp] at hview; exact Option.noConfusion hview
      | ok date =>
        simp only [hdp] at hview
        cases hdesc : record.get_value "Description" with
        | error e => simp only [hdesc] at hview; exact Option.noConfusion hview
        | ok description =>
          simp only [hdesc] at hview
          cases hamt : record.get_value "Amount" with
          | error e => simp only [hamt] at hview; exact Option.noConfusion hview
          | ok amountStr =>
            simp only [hamt] at hview
            cases hq : parseDecimal amountStr with
            | none => simp only [hq] at hview; exact Option.noConfusion hview
            | some q2 =>
              simp only [hq, Option.some.injEq, Prod.mk.injEq] at hview
              rw [hview.1]

theorem taxRowView_eq (record : Record) (currency dateStr description amountStr : String)
    (date : Date) (q : Decimal)
    (hcur : record.get_value "Currency" = .ok currency)
    (hdate : record.get_value "Date" = .ok dateStr)
    (hdp : parse_date dateStr = .ok date)
    (hdesc : record.get_value "Description" = .ok description)
    (hamt : record.get_value "Amount" = .ok amountStr)
    (hq : parseDecimal amountStr = some q) :
    taxRowView record = some (currency, date, description, q) := by
  simp only [taxRowView, hcur, hdate, hdp, hdesc, hamt, hq]

/-- C3: each successfully processed withholding-tax row preserves the
invariant that the pending map has at most one entry per (date,
description) key, and a key pending before the row is gone afterwards
exactly when the row is a matching cancelling entry for it: a non-"Total"
row parsing to that key with a nonzero, sign-positive amount equal (as a
money value) to the stored pending entry. -/
theorem pending_tax_map_invariant (p : IbStatementParser) (record : Record)
    (p2 : IbStatementParser)
    (hok : WithholdingTaxParser.parse p record = .ok p2)
    (hnodup : (taxKeys p.taxes).Nodup) :
    (taxKeys p2.taxes).Nodup ∧
    (∀ k, k ∈ taxKeys p.taxes →
      (k ∉ taxKeys p2.taxes ↔
        ∃ currency q stored, currency ≠ "Total" ∧
          taxRowView record = some (currency, k.1, k.2, q) ∧
          q.is_zero = false ∧ q.is_sign_positive = true ∧
          lookupTax p.taxes k = some stored ∧
          Cash.eqb stored ⟨currency, q⟩ = true)) := by
  unfold WithholdingTaxParser.parse at hok
  cases hcur : record.get_value "Currency" with
  | error e => simp only [hcur] at hok; exact Except.noConfusion hok
  | ok currency =>
  simp only [hcur] at hok
  by_cases hct : currency = "Total"
  · rw [if_pos hct] at hok
    have hp : p2 = p := by
      simp only [Except.ok.injEq] at hok
      exact hok.symm
    subst hp
    refine ⟨hnodup, ?_⟩
    intro k hk
    constructor
    · intro habs
      exact absurd hk habs
    · rintro ⟨cur, q, stored, hct2, hview, -⟩
      have hcv := taxRowView_currency record cur k.1 k.2 q hview
      rw [hcur] at hcv
      simp only [Except.ok.injEq] at hcv
      exact absurd (hcv ▸ hct) hct2
  · rw [if_neg hct] at hok
    cases hdate : record.get_value "Date" with
    | error e => simp only [hdate] at hok; exact Except.noConfusion hok
    | ok dateStr =>
    simp only [hdate] at hok
    cases hdp : parse_date dateStr with
    | error e => simp only [hdp] at hok; exact Except.noConfusion hok
    | ok date =>
    simp only [hdp] at hok
    cases hdesc : record.get_value "Description" with
    | error e => simp only [hdesc] at hok; exact Except.noConfusion hok
    | ok description =>
    simp only [hdesc] at hok
    cases hamt : record.get_value "Amount" with
    | error e => simp only [hamt] at hok; exact Except.noConfusion hok
    | ok amountStr =>
    simp only [hamt] at hok
    cases htax : Cash.new_from_string currency amountStr with
    | error e => simp only [htax] at hok; exact Except.noConfusion hok
    | ok tax =>
    simp only [htax] at hok
    obtain ⟨amount, hpd, htaxeq⟩ := new_from_string_shape currency amountStr tax htax
    have hview := taxRowView_eq record currency dateStr description amountStr date
      tax.amount hcur hdate hdp hdesc hamt (by rw [hpd, htaxeq])
    by_cases hz : tax.amount.is_zero = true
    · rw [if_pos hz] at hok
      exact Except.noConfusion hok
    · rw [if_neg hz] at hok
      rw [Bool.not_eq_true] at hz
      by_cases hs : tax.amount.is_sign_positive = true
      · rw [if_pos hs] at hok
        cases hlook : lookupTax p.taxes (date, description) with
        | none =>
          have hrem : taxesRemove p.taxes (date, description) = (none, p.taxes) := by
            rw [taxesRemove, hlook]
          simp only [hrem] at hok
          exact Except.noConfusion hok
        | some stored =>
          have hrem : taxesRemove p.taxes (date, description) =
              (some stored, removeFirstTax p.taxes (date, description)) := by
            rw [taxesRemove, hlook]
          simp only [hrem] at hok
          by_cases heqb : stored.eqb tax = true
          · rw [if_pos heqb] at hok
            have hp : p2 = { p with taxes := removeFirstTax p.taxes (date, description) } := by
              simp only [Except.ok.injEq] at hok
              exact hok.symm
            subst hp
            refine ⟨nodup_removeFirstTax p.taxes (date, description) hnodup, ?_⟩
            intro k hk
            by_cases hkey : k = (date, description)
            · subst hkey
              constructor
              · intro _
                refine ⟨currency, tax.amount, stored, hct, hview, hz, hs, hlook, ?_⟩
                rw [show (⟨currency, tax.amount⟩ : Cash) = tax from by rw [htaxeq]]
                exact heqb
              · intro _
                exact not_mem_removeFirstTax p.taxes (date, description) hnodup
            · constructor
              · intro habs
                exact absurd
                  ((mem_removeFirstTax_of_ne p.taxes (date, description) k hkey).mpr hk) habs
              · rintro ⟨cur, q, stored2, hct2, hview2, -⟩
                rw [hview] at hview2
                simp only [Option.some.injEq, Prod.mk.injEq] at hview2
                exact absurd (Prod.ext hview2.2.1.symm hview2.2.2.1.symm) hkey
          · rw [if_neg heqb] at hok
            exact Except.noConfusion hok
      · rw [if_neg hs] at hok
        rw [Bool.not_eq_true] at hs
        cases hlook : lookupTax p.taxes (date, description) with
        | some stored =>
          have hins : taxesInsert p.taxes (date, description)
              { tax with amount := tax.amount.neg } =
              (some stored, p.taxes.map (fun e => if e.1 = (date, description)
                then ((date, description), { tax with amount := tax.amount.neg }) else e)) := by
            rw [taxesInsert, hlook]
          simp only [hins] at hok
          exact Except.noConfusion hok
        | none =>
          have hins : taxesInsert p.taxes (date, description)
              { tax with amount := tax.amount.neg } =
              (none, p.taxes ++
                [((date, description), { tax with amount := tax.amount.neg })]) := by
            rw [taxesInsert, hlook]
          simp only [hins] at hok
          have hp : p2 = { p with taxes :=
              p.taxes ++ [((date, description), { tax with amount := tax.amount.neg })] } := by
            simp only [Except.ok.injEq] at hok
            exact hok.symm
          subst hp
          have hkm : (date, description) ∉ taxKeys p.taxes :=
            (lookupTax_none_iff p.taxes (date, description)).mp hlook
          constructor
          · show (taxKeys (p.taxes ++
              [((date, description), { tax with amount := tax.amount.neg })])).Nodup
            rw [taxKeys_append, List.nodup_append]
            refine ⟨hnodup, List.nodup_singleton _, ?_⟩
            intro a ha hb
            rw [show taxKeys [((date, description), { tax with amount := tax.amount.neg })] =
              [(date, description)] from rfl, List.mem_singleton] at hb
            subst hb
            exact hkm ha
          · intro k hk
            constructor
            · intro habs
              have hmem : k ∈ taxKeys (p.taxes ++
                  [((date, description), { tax with amount := tax.amount.neg })]) := by
                rw [taxKeys_append]
                exact List.mem_append_left _ hk
              exact absurd hmem habs
            · rintro ⟨cur, q, stored2, hct2, hview2, -, hs2, -⟩
              rw [hview] at hview2
              simp only [Option.some.injEq, Prod.mk.injEq] at hview2
              rw [← hview2.2.2.2, hs] at hs2
              exact Bool.noConfusion hs2

/-- Witness for C3: on a parser with one concrete pending entry, the
matching positive row removes exactly that key, and the removal condition
of the invariant holds at it. -/
theorem pending_tax_map_invariant_witness :
    ∃ currency q stored, currency ≠ "Total" ∧
      taxRowView
        { name := "Withholding Tax",
          fields := ["Currency", "Date", "Description", "Amount"],
          values := ["Withholding Tax", "Data", "USD", "2018-03-01", "X", "10.00"] } =
        some (currency, ((⟨2018, 3, 1⟩, "X") : Date × String).1,
          ((⟨2018, 3, 1⟩, "X") : Date × String).2, q) ∧
      q.is_zero = false ∧ q.is_sign_positive = true ∧
      lookupTax [(((⟨2018, 3, 1⟩ : Date), "X"), (⟨"USD", ⟨1000, 2⟩⟩ : Cash))]
        (⟨2018, 3, 1⟩, "X") = some stored ∧
      Cash.eqb stored ⟨currency, q⟩ = true :=
  ((pending_tax_map_invariant
      ⟨BrokerStatementBuilder.new, [], [((⟨2018, 3, 1⟩, "X"), ⟨"USD", ⟨1000, 2⟩⟩)]⟩
      { name := "Withholding Tax",
        fields := ["Currency", "Date", "Description", "Amount"],
        values := ["Withholding Tax", "Data", "USD", "2018-03-01", "X", "10.00"] }
      ⟨BrokerStatementBuilder.new, [], []⟩
      (by decide) (by decide)).2
    (⟨2018, 3, 1⟩, "X") (by decide)).mp (by decide)

/- ## Claim theorems for the period parser -/

/-- C4: structure of the period parser. A period string splitting into a
single segment that parses as a date D yields the half-open interval
[D, D+1day); a string of two " - "-separated dates D1, D2 fails when
D1 > D2 and otherwise yields [D1, D2+1day); any other number of
" - "-separated segments is a format error. -/
theorem parse_period_cases (s : String) :
    (∀ d1 date, strSplitOn s " - " = [d1] → parse_period_date d1 = .ok date →
      parse_period s = .ok (date, date.nextDay)) ∧
    (∀ d1 d2 start endDate, strSplitOn s " - " = [d1, d2] →
      parse_period_date d1 = .ok start → parse_period_date d2 = .ok endDate →
      ((endDate.ltB start = true →
          parse_period s = .error ("Invalid period: " ++ s)) ∧
       (endDate.ltB start = false →
          parse_period s = .ok (start, endDate.nextDay)))) ∧
    (3 ≤ (strSplitOn s " - ").length →
      parse_period s = .error ("Invalid date: " ++ s)) := by
  refine ⟨?_, ?_, ?_⟩
  · intro d1 date hsplit hparse
    simp only [parse_period, hsplit, hparse]
  · intro d1 d2 start endDate hsplit hp1 hp2
    constructor
    · intro hinv
      simp only [parse_period, hsplit, hp1, hp2, hinv, if_pos]
    · intro hinv
      simp only [parse_period, hsplit, hp1, hp2, hinv]
      simp
  · intro hlen
    cases hsplit : strSplitOn s " - " with
    | nil => rw [hsplit] at hlen; simp at hlen
    | cons a rest =>
      cases rest with
      | nil => rw [hsplit] at hlen; simp at hlen
      | cons b rest2 =>
        cases rest2 with
        | nil => rw [hsplit] at hlen; simp at hlen
        | cons c rest3 =>
          simp only [parse_period, hsplit]

/-- Witness for C4 at the spec's concrete period strings: a single date,
an ordered two-date range, an inverted range, and a three-segment string. -/
theorem parse_period_cases_witness :
    parse_period "October 1, 2018" = .ok (⟨2018, 10, 1⟩, ⟨2018, 10, 2⟩) ∧
    parse_period "May 21, 2018 - September 28, 2018" =
      .ok (⟨2018, 5, 21⟩, ⟨2018, 9, 29⟩) ∧
    parse_period "September 28, 2018 - May 21, 2018" =
      .error ("Invalid period: " ++ "September 28, 2018 - May 21, 2018") ∧
    parse_period "May 21, 2018 - May 22, 2018 - May 23, 2018" =
      .error ("Invalid date: " ++ "May 21, 2018 - May 22, 2018 - May 23, 2018") :=
  ⟨(parse_period_cases "October 1, 2018").1 "October 1, 2018" ⟨2018, 10, 1⟩
      (by decide) (by decide),
   ((parse_period_cases "May 21, 2018 - September 28, 2018").2.1 "May 21, 2018"
      "September 28, 2018" ⟨2018, 5, 21⟩ ⟨2018, 9, 28⟩
      (by decide) (by decide) (by decide)).2 (by decide),
   ((parse_period_cases "September 28, 2018 - May 21, 2018").2.1 "September 28, 2018"
      "May 21, 2018" ⟨2018, 9, 28⟩ ⟨2018, 5, 21⟩
      (by decide) (by decide) (by decide)).1 (by decide),
   (parse_period_cases "May 21, 2018 - May 22, 2018 - May 23, 2018").2.2 (by decide)⟩

/- ## Claim theorems for the deposits handler -/

/-- The deposit event a deposits-table data row contributes: none for
summary rows (currency prefixed "Total") or rows that fail to parse, and
the parsed (settle date, positive amount) event otherwise. -/
def depositView (record : Record) : Option CashAssets :=
  match record.get_value "Currency" with
  | .error _ => none
  | .ok currency =>
    if strStartsWith currency "Total" then none
    else
      match record.get_value "Settle Date" with
      | .error _ => none
      | .ok dateStr =>
        match parse_date dateStr with
        | .error _ => none
        | .ok date =>
          match record.get_value "Amount" with
          | .error _ => none
          | .ok amountStr =>
            match Cash.new_from_string_positive currency amountStr with
            | .error _ => none
            | .ok amount => some ⟨date, amount⟩

theorem deposits_step (p : IbStatementParser) (record : Record) (p1 : IbStatementParser)
    (hok : DepositsParser.parse p record = .ok p1) :
    p1.statement = { p.statement with
        deposits := p.statement.deposits ++ (depositView record).toList } ∧
    p1.tickers = p.tickers ∧ p1.taxes = p.taxes := by
  unfold DepositsParser.parse at hok
  cases hcur : record.get_value "Currency" with
  | error e => simp only [hcur] at hok; exact Except.noConfusion hok
  | ok currency =>
  simp only [hcur] at hok
  by_cases htot : strStartsWith currency "Total" = true
  · rw [if_pos htot] at hok
    simp only [Except.ok.injEq] at hok
    subst hok
    have hv : depositView record = none := by
      simp [depositView, hcur, htot]
    rw [hv]
    simp
  · rw [if_neg htot] at hok
    cases hdate : record.get_value "Settle Date" with
    | error e => simp only [hdate] at hok; exact Except.noConfusion hok
    | ok dateStr =>
    simp only [hdate] at hok
    cases hdp : parse_date dateStr with
    | error e => simp only [hdp] at hok; exact Except.noConfusion hok
    | ok date =>
    simp only [hdp] at hok
    cases hamt : record.get_value "Amount" with
    | error e => simp only [hamt] at hok; exact Except.noConfusion hok
    | ok amountStr =>
    simp only [hamt] at hok
    cases hval : Cash.new_from_string_positive currency amountStr with
    | error e => simp only [hval] at hok; exact Except.noConfusion hok
    | ok amount =>
    simp only [hval, Except.ok.injEq] at hok
    subst hok
    have hv : depositView record = some ⟨date, amount⟩ := by
      simp [depositView, hcur, htot, hdate, hdp, hamt, hval]
    rw [hv]
    simp

theorem new_from_string_positive_pos (currency s : String) (amount : Cash)
    (h : Cash.new_from_string_positive currency s = .ok amount) :
    0 < amount.amount.mantissa := by
  unfold Cash.new_from_string_positive at h
  cases hns : Cash.new_from_string currency s with
  | error e => simp only [hns] at h; exact Except.noConfusion h
  | ok cash =>
    simp only [hns] at h
    by_cases hlt : Decimal.zero.ltb cash.amount = true
    · rw [if_pos hlt] at h
      simp only [Except.ok.injEq] at h
      subst h
      simp only [Decimal.ltb, Decimal.zero, decide_eq_true_eq, zero_mul] at hlt
      have hp : pow10 0 = 1 := rfl
      rw [hp, mul_one] at hlt
      exact hlt
    · rw [if_neg hlt] at h
      exact Except.noConfusion h

/-- C8: for every data row of the deposits table: a row whose currency
starts with "Total" is skipped with no state change; otherwise, with the
settle date parsing and the amount parsing as a strictly positive money
value, exactly one deposit event (date, amount) is appended to the end of
the deposit list; consequently over any successfully processed sequence of
data rows the deposit events appear in exactly the order of their rows. -/
theorem deposits_append_in_order (p : IbStatementParser) (record : Record) :
    (∀ currency, record.get_value "Currency" = .ok currency →
      strStartsWith currency "Total" = true → DepositsParser.parse p record = .ok p) ∧
    (∀ currency dateStr date amountStr amount,
      record.get_value "Currency" = .ok currency →
      strStartsWith currency "Total" = false →
      record.get_value "Settle Date" = .ok dateStr →
      parse_date dateStr = .ok date →
      record.get_value "Amount" = .ok amountStr →
      Cash.new_from_string_positive currency amountStr = .ok amount →
      0 < amount.amount.mantissa ∧
      DepositsParser.parse p record =
        .ok { p with statement := { p.statement with
                deposits := p.statement.deposits ++ [⟨date, amount⟩] } }) ∧
    (∀ records p2, runRecords DepositsParser.parse p records = .ok p2 →
      p2.statement.deposits = p.statement.deposits ++ records.filterMap depositView) := by
  refine ⟨?_, ?_, ?_⟩
  · intro currency hcur htot
    simp only [DepositsParser.parse, hcur, htot, if_pos]
  · intro currency dateStr date amountStr amount hcur htot hdate hdp hamt hval
    refine ⟨new_from_string_positive_pos currency amountStr amount hval, ?_⟩
    simp only [DepositsParser.parse, hcur, htot, hdate, hdp, hamt, hval]
    simp
  · intro records
    induction records generalizing p with
    | nil =>
      intro p2 hrun
      simp only [runRecords, Except.ok.injEq] at hrun
      subst hrun
      simp
    | cons r rest ih =>
      intro p2 hrun
      rw [runRecords] at hrun
      cases hstep : DepositsParser.parse p r with
      | error e => rw [hstep] at hrun; exact Except.noConfusion hrun
      | ok p1 =>
        rw [hstep] at hrun
        have hview := deposits_step p r p1 hstep
        have hrest := ih p1 p2 hrun
        rw [hrest, hview.1]
        simp only [List.filterMap_cons]
        cases hv : depositView r with
        | none => simp [hv]
        | some dep => simp [hv]

/-- Witness for C8: a concrete "Total" summary row is skipped unchanged,
and the spec's concrete deposit data row appends the event
(2018-01-02, 500 USD); a one-row run produces exactly that list. -/
theorem deposits_append_in_order_witness :
    DepositsParser.parse IbStatementParser.new
      { name := "Deposits & Withdrawals",
        fields := ["Currency", "Settle Date", "Amount"],
        values := ["Deposits & Withdrawals", "Data", "Total in USD", "", "500"] } =
      .ok IbStatementParser.new ∧
    (0 < (Cash.mk "USD" ⟨500, 0⟩).amount.mantissa ∧
      DepositsParser.parse IbStatementParser.new
        { name := "Deposits & Withdrawals",
          fields := ["Currency", "Settle Date", "Amount"],
          values := ["Deposits & Withdrawals", "Data", "USD", "2018-01-02", "500"] } =
        .ok { IbStatementParser.new with
                statement := { IbStatementParser.new.statement with
                  deposits := IbStatementParser.new.statement.deposits ++
                    [⟨⟨2018, 1, 2⟩, ⟨"USD", ⟨500, 0⟩⟩⟩] } }) ∧
    (⟨⟨none, none, [⟨⟨2018, 1, 2⟩, ⟨"USD", ⟨500, 0⟩⟩⟩]⟩, [], []⟩ :
        IbStatementParser).statement.deposits =
      IbStatementParser.new.statement.deposits ++
        [({ name := "Deposits & Withdrawals",
            fields := ["Currency", "Settle Date", "Amount"],
            values := ["Deposits & Withdrawals", "Data", "USD", "2018-01-02", "500"] } :
          Record)].filterMap depositView :=
  ⟨(deposits_append_in_order IbStatementParser.new
      { name := "Deposits & Withdrawals",
        fields := ["Currency", "Settle Date", "Amount"],
        values := ["Deposits & Withdrawals", "Data", "Total in USD", "", "500"] }).1
      "Total in USD" (by decide) (by decide),
   (deposits_append_in_order IbStatementParser.new
      { name := "Deposits & Withdrawals",
        fields := ["Currency", "Settle Date", "Amount"],
        values := ["Deposits & Withdrawals", "Data", "USD", "2018-01-02", "500"] }).2.1
      "USD" "2018-01-02" ⟨2018, 1, 2⟩ "500" ⟨"USD", ⟨500, 0⟩⟩
      (by decide) (by decide) (by decide) (by decide) (by decide) (by decide),
   (deposits_append_in_order IbStatementParser.new
      { name := "Deposits & Withdrawals",
        fields := ["Currency", "Settle Date", "Amount"],
        values := ["Deposits & Withdrawals", "Data", "USD", "2018-01-02", "500"] }).2.2
      [{ name := "Deposits & Withdrawals",
         fields := ["Currency", "Settle Date", "Amount"],
         values := ["Deposits & Withdrawals", "Data", "USD", "2018-01-02", "500"] }]
      ⟨⟨none, none, [⟨⟨2018, 1, 2⟩, ⟨"USD", ⟨500, 0⟩⟩⟩]⟩, [], []⟩ (by decide)⟩

/- ## Claim theorems for the dispatch loop and row classifier -/

theorem parseLoop_trace_names : ∀ (p : IbStatementParser) (st : LoopState)
    (rows : List (List String)) (nm : String) (rec : List String),
    (nm, rec) ∈ (parseLoop p st rows).2 → rec.getD 0 "" = nm := by
  intro p st rows
  induction p, st, rows using parseLoop.induct <;>
    intro nm rec h <;>
    rw [parseLoop] at h <;>
    simp_all
  case case2 => rename_i ih; exact ih nm rec h
  case case4 =>
    rename_i hlen hhdr ih
    rw [if_neg (by omega)] at h
    exact ih nm rec h
  case case5 =>
    rename_i hlen hemp ih
    rw [if_neg (by omega)] at h
    exact ih nm rec h
  case case9 =>
    rename_i hlen hne ih
    rw [if_neg (by omega)] at h
    exact ih nm rec h
  case case10 =>
    rename_i hlen hname hhdr ih
    rw [if_neg (by omega)] at h
    exact ih nm rec h
  case case11 =>
    rename_i hlen hname hhdr hmis
    rw [if_neg (by omega)] at h
    simp at h
  case case12 =>
    rename_i hlen hname hhdr hmis hrun
    rw [if_neg (by omega)] at h
    simp at h
    rw [h.1, h.2]
    exact hname
  case case13 =>
    rename_i p2 hrun ih
    rename_i hlen hname hhdr hmis
    rw [if_neg (by omega)] at h
    simp only [hrun] at h
    rcases List.mem_cons.mp h with hh | hh
    · simp only [Prod.mk.injEq] at hh
      rw [hh.2, hh.1]
      exact hname
    · exact ih nm rec hh

/-- C6: the dispatch loop never hands a data row to the handler of a table
other than the one the row itself names: every handler invocation in the
trace pairs the active table's name with a row whose first field is that
very name, and a row encountered inside a table that names a different
table is re-classified by the top-level loop (the parse continues exactly
as if that row were classified from scratch, with the remaining rows
untouched). -/
theorem dispatch_no_misattribution :
    (∀ (p : IbStatementParser) (st : LoopState) (rows : List (List String))
        (nm : String) (rec : List String),
      (nm, rec) ∈ (parseLoop p st rows).2 → rec.getD 0 "" = nm) ∧
    (∀ (p : IbStatementParser) (hr rec : List String) (rest : List (List String)),
      rec.getD 0 "" ≠ hr.getD 0 "" →
      parseLoop p (.header hr) (rec :: rest) = parseLoop p (.record rec) rest) := by
  constructor
  · exact parseLoop_trace_names
  · intro p hr rec rest hne
    conv_lhs => rw [parseLoop]
    simp only [parse_header]
    by_cases hlen : rec.length < 2
    · rw [if_pos hlen]
      conv_rhs => rw [parseLoop]
      rw [if_pos hlen]
    · rw [if_neg hlen, if_pos hne]

/-- Witness for C6: on a concrete run, the handler trace pairs the table
"Foo" with a row whose first field is "Foo", and a "Withholding Tax" row
met inside a "Financial Instrument Information" table region is
re-classified at top level. -/
theorem dispatch_no_misattribution_witness :
    (["Foo", "x"] : List String).getD 0 "" = "Foo" ∧
    parseLoop IbStatementParser.new
        (.header ["Financial Instrument Information", "Header", "Symbol", "Description"])
        [["Withholding Tax", "Header", "Currency"], ["x", "y"]] =
      parseLoop IbStatementParser.new
        (.record ["Withholding Tax", "Header", "Currency"]) [["x", "y"]] :=
  ⟨dispatch_no_misattribution.1 IbStatementParser.new
      (.header ["Foo", "Header"]) [["Foo", "x"]] "Foo" ["Foo", "x"]
      (by simp [parseLoop, selectHandler, dataTypeMismatch, TableHandler.run,
        TableHandler.data_types, parse_header]),
   dispatch_no_misattribution.2 IbStatementParser.new
      ["Financial Instrument Information", "Header", "Symbol", "Description"]
      ["Withholding Tax", "Header", "Currency"] [["x", "y"]] (by decide)⟩

/-- C5: classification of a row by the scanning loop. A row with fewer
than two fields is a malformed-row error (and at top level the parse
aborts with that error, producing no statement); otherwise a second field
equal to "Header" begins the inside-table phase for that row, an empty
second field is skipped back to scanning, and any other second field is a
malformed-row error. -/
theorem row_classifier_rules (p : IbStatementParser) (r : List String)
    (rows : List (List String)) :
    (r.length < 2 →
      parseLoop p (.record r) rows = (.error (invalidRecordMsg r), [])) ∧
    (2 ≤ r.length → r.getD 1 "" = "Header" →
      parseLoop p (.record r) rows = parseLoop p (.header r) rows) ∧
    (2 ≤ r.length → r.getD 1 "" = "" →
      parseLoop p (.record r) rows = parseLoop p .scanning rows) ∧
    (2 ≤ r.length → r.getD 1 "" ≠ "Header" → r.getD 1 "" ≠ "" →
      parseLoop p (.record r) rows = (.error (invalidRecordMsg r), [])) ∧
    (∀ rest, r.length < 2 →
      IbStatementParser.parse (r :: rest) = .error (invalidRecordMsg r)) := by
  refine ⟨?_, ?_, ?_, ?_, ?_⟩
  · intro hlen
    conv_lhs => rw [parseLoop]
    rw [if_pos hlen]
  · intro hlen hhdr
    conv_lhs => rw [parseLoop]
    rw [if_neg (by omega), if_pos hhdr]
  · intro hlen hemp
    conv_lhs => rw [parseLoop]
    rw [if_neg (by omega), if_neg (by rw [hemp]; decide), if_pos hemp]
  · intro hlen hhdr hemp
    conv_lhs => rw [parseLoop]
    rw [if_neg (by omega), if_neg hhdr, if_neg hemp]
  · intro rest hlen
    have h1 : parseLoop IbStatementParser.new .scanning (r :: rest) =
        parseLoop IbStatementParser.new (.record r) rest := by
      rw [parseLoop]
    have h2 : parseLoop IbStatementParser.new (.record r) rest =
        (.error (invalidRecordMsg r), []) := by
      conv_lhs => rw [parseLoop]
      rw [if_pos hlen]
    unfold IbStatementParser.parse
    rw [h1, h2]

/-- Witness for C5 on concrete rows: a one-field row errors (also through
the top-level parse), a "Header" row opens a table, an empty-tagged row is
skipped, and any other tag errors. -/
theorem row_classifier_rules_witness :
    parseLoop IbStatementParser.new (.record ["x"]) [] =
      (.error (invalidRecordMsg ["x"]), []) ∧
    parseLoop IbStatementParser.new (.record ["T", "Header"]) [] =
      parseLoop IbStatementParser.new (.header ["T", "Header"]) [] ∧
    parseLoop IbStatementParser.new (.record ["a", ""]) [] =
      parseLoop IbStatementParser.new .scanning [] ∧
    parseLoop IbStatementParser.new (.record ["a", "Data"]) [] =
      (.error (invalidRecordMsg ["a", "Data"]), []) ∧
    IbStatementParser.parse [["x"]] = .error (invalidRecordMsg ["x"]) :=
  ⟨(row_classifier_rules IbStatementParser.new ["x"] []).1 (by decide),
   (row_classifier_rules IbStatementParser.new ["T", "Header"] []).2.1
      (by decide) (by decide),
   (row_classifier_rules IbStatementParser.new ["a", ""] []).2.2.1
      (by decide) (by decide),
   (row_classifier_rules IbStatementParser.new ["a", "Data"] []).2.2.2.1
      (by decide) (by decide) (by decide),
   (row_classifier_rules IbStatementParser.new ["x"] []).2.2.2.2 [] (by decide)⟩
